import Mathlib

/-!
Verification of the scoring core of `src/backend/main.py` (`get_all_points`).

The scoring engine receives the ordered list of stored rows and, via the
distance engine (PostGIS `ST_Distance` against the first-to-last
`LINESTRING`), computes per-point distances and a normalized accuracy
distribution over interior points.  The distance engine is external, so it
is modelled as an explicit function parameter `f : Row → Row → Row → ℚ`
taking the target row, the first row and the last row.  Exact rational
arithmetic stands in for Python floats, as the claims are stated over
exact arithmetic.
-/

namespace GeoScore

/-- A row of the `locations` table as fetched by `get_all_points`
(`SELECT id, username, timestamp, ST_X(...) AS lng, ST_Y(...) AS lat`). -/
structure Row where
  id : Nat
  username : String
  timestamp : String
  lat : ℚ
  lng : ℚ
deriving Repr, Inhabited, DecidableEq

/-- One element of the list returned by `get_all_points`. -/
structure ScoredPoint where
  id : Nat
  username : String
  latitude : ℚ
  longitude : ℚ
  timestamp : String
  distance : Option ℚ
  accuracy : Option ℚ
  is_first : Bool
  is_last : Bool
deriving Repr, Inhabited, DecidableEq

/-- The damping constant `1e-6` of `main.py` line 155. -/
def epsilon : ℚ := 1 / 1000000

/-- The `distances` list built by the loop at `main.py` lines 130-143:
`0.0` for the first and last index, the distance-engine result for every
interior index. -/
def lineDistances (f : Row → Row → Row → ℚ) (rows : List Row) : List ℚ :=
  (List.range rows.length).map fun idx =>
    if idx ≠ 0 ∧ idx ≠ rows.length - 1 then
      f (rows.getD idx default) (rows.getD 0 default)
        (rows.getD (rows.length - 1) default)
    else 0

/-- `non_end_indices` of `main.py` line 145. -/
def nonEndIndices (n : Nat) : List Nat :=
  (List.range n).filter fun i => decide (i ≠ 0 ∧ i ≠ n - 1)

/-- `non_end_distances` of `main.py` line 146. -/
def nonEndDistances (f : Row → Row → Row → ℚ) (rows : List Row) : List ℚ :=
  (nonEndIndices rows.length).map fun i => (lineDistances f rows).getD i 0

/-- `total_distance` of `main.py` line 147. -/
def totalDistance (f : Row → Row → Row → ℚ) (rows : List Row) : ℚ :=
  (nonEndDistances f rows).sum

/-- `inverted` of `main.py` line 155. -/
def inverted (f : Row → Row → Row → ℚ) (rows : List Row) : List ℚ :=
  (nonEndDistances f rows).map fun d => 1 / (d + epsilon)

/-- `total_inverted` of `main.py` line 156. -/
def totalInverted (f : Row → Row → Row → ℚ) (rows : List Row) : ℚ :=
  (inverted f rows).sum

/-- `accs` of `main.py` line 157. -/
def accs (f : Row → Row → Row → ℚ) (rows : List Row) : List ℚ :=
  (inverted f rows).map fun v => v / totalInverted f rows * 100

/-- The `accuracies` list of `main.py` lines 148-158. -/
def accuracies (f : Row → Row → Row → ℚ) (rows : List Row) : List (Option ℚ) :=
  if (nonEndIndices rows.length).length = 0 then
    List.replicate rows.length none
  else if totalDistance f rows = 0 then
    (List.range rows.length).map fun i =>
      if i ∈ nonEndIndices rows.length then
        some (100 / ((nonEndIndices rows.length).length : ℚ))
      else none
  else
    (List.range rows.length).map fun i =>
      if i ∈ nonEndIndices rows.length then
        some ((accs f rows).getD ((nonEndIndices rows.length).indexOf i) 0)
      else none

/-- `get_all_points` of `main.py` lines 99-173, after the rows have been
fetched: the `len(rows) < 2` early return (lines 110-124) and the general
branch assembling the result list (lines 125-173). -/
def getAllPoints (f : Row → Row → Row → ℚ) (rows : List Row) : List ScoredPoint :=
  if rows.length < 2 then
    rows.map fun row =>
      { id := row.id, username := row.username, latitude := row.lat,
        longitude := row.lng, timestamp := row.timestamp,
        distance := none, accuracy := some 100,
        is_first := true, is_last := true }
  else
    (List.range rows.length).map fun idx =>
      let row := rows.getD idx default
      { id := row.id, username := row.username, latitude := row.lat,
        longitude := row.lng, timestamp := row.timestamp,
        distance := some ((lineDistances f rows).getD idx 0),
        accuracy := (accuracies f rows).getD idx none,
        is_first := decide (idx = 0),
        is_last := decide (idx = rows.length - 1) }

/-! ### Concrete sample data used by the witnesses -/

/-- A concrete stand-in distance engine: the squared latitude of the
target row.  Nonnegative everywhere, like a real geodesic distance. -/
def sampleDist : Row → Row → Row → ℚ := fun p _ _ => p.lat * p.lat

/-- Builds a concrete row. -/
def mkRow (i : Nat) (la lg : ℚ) : Row :=
  { id := i, username := "u", timestamp := "t", lat := la, lng := lg }

def sampleRows1 : List Row := [mkRow 0 5 6]

def sampleRows2 : List Row := [mkRow 0 0 0, mkRow 1 0 7]

def sampleRows3 : List Row := [mkRow 0 3 0, mkRow 1 1 0, mkRow 2 4 0]

def sampleRows4 : List Row :=
  [mkRow 0 0 0, mkRow 1 1 0, mkRow 2 2 0, mkRow 3 0 0]

/-- Three rows whose single interior row lies exactly on the reference
segment under `sampleDist` (latitude 0, so distance 0). -/
def sampleRowsZ : List Row := [mkRow 0 2 0, mkRow 1 0 5, mkRow 2 3 9]

/-! ### Index and list helper lemmas -/

lemma getD_map_range {α : Type} (n i : ℕ) (hi : i < n) (g : ℕ → α) (d : α) :
    ((List.range n).map g).getD i d = g i := by
  rw [List.getD_eq_getElem _ _ (by simpa using hi), List.getElem_map,
    List.getElem_range]

lemma getD_map_indexOf {α : Type} (l : List ℕ) (g : ℕ → α) (i : ℕ) (h : i ∈ l)
    (d : α) : (l.map g).getD (l.indexOf i) d = g i := by
  have hlt : l.indexOf i < l.length := List.indexOf_lt_length.mpr h
  rw [List.getD_eq_getElem _ _ (by simpa using hlt), List.getElem_map,
    List.getElem_indexOf hlt]

lemma sum_map_ite_filter (p : ℕ → Bool) (g : ℕ → ℚ) (l : List ℕ) :
    (l.map fun i => if p i then g i else 0).sum = ((l.filter p).map g).sum := by
  induction l with
  | nil => rfl
  | cons a l ih =>
    by_cases h : p a <;> simp [List.filter_cons, h, ih]

lemma countP_decide_eq_one {l : List ℕ} (a : ℕ) (hn : l.Nodup) (ha : a ∈ l) :
    (l.countP fun i => decide (i = a)) = 1 := by
  have h : (l.countP fun i => decide (i = a)) = l.count a := by
    apply List.countP_congr
    intro x _
    by_cases h : x = a <;> simp [h, List.count]
  rw [h]
  exact List.count_eq_one_of_mem hn ha

/-! ### Facts about the interior-index list -/

lemma mem_nonEndIndices {n i : ℕ} :
    i ∈ nonEndIndices n ↔ i < n ∧ i ≠ 0 ∧ i ≠ n - 1 := by
  simp [nonEndIndices, List.mem_filter, List.mem_range]

lemma nonEndIndices_nodup (n : ℕ) : (nonEndIndices n).Nodup :=
  (List.nodup_range n).filter _

lemma one_mem_nonEndIndices {n : ℕ} (h3 : 3 ≤ n) : 1 ∈ nonEndIndices n := by
  rw [mem_nonEndIndices]
  refine ⟨by omega, by omega, by omega⟩

lemma nonEndIndices_ne_nil {n : ℕ} (h3 : 3 ≤ n) : nonEndIndices n ≠ [] :=
  List.ne_nil_of_mem (one_mem_nonEndIndices h3)

lemma nonEndIndices_length_ne_zero {n : ℕ} (h3 : 3 ≤ n) :
    (nonEndIndices n).length ≠ 0 := by
  simpa [List.length_eq_zero] using nonEndIndices_ne_nil h3

/-! ### Facts about the distance list -/

lemma lineDistances_getD {f : Row → Row → Row → ℚ} {rows : List Row} {i : ℕ}
    (hi : i < rows.length) :
    (lineDistances f rows).getD i 0 =
      if i ≠ 0 ∧ i ≠ rows.length - 1 then
        f (rows.getD i default) (rows.getD 0 default)
          (rows.getD (rows.length - 1) default)
      else 0 := by
  rw [lineDistances, getD_map_range _ _ hi]

lemma lineDistances_getD_nonneg {f : Row → Row → Row → ℚ}
    (hf : ∀ p a b, 0 ≤ f p a b) (rows : List Row) (i : ℕ) :
    0 ≤ (lineDistances f rows).getD i 0 := by
  by_cases hi : i < rows.length
  · rw [lineDistances_getD hi]
    split
    · exact hf _ _ _
    · exact le_refl 0
  · rw [List.getD_eq_default]
    simp [lineDistances]
    omega

lemma nonEndDistances_nonneg {f : Row → Row → Row → ℚ}
    (hf : ∀ p a b, 0 ≤ f p a b) (rows : List Row) :
    ∀ d ∈ nonEndDistances f rows, 0 ≤ d := by
  intro d hd
  rw [nonEndDistances, List.mem_map] at hd
  obtain ⟨i, _, rfl⟩ := hd
  exact lineDistances_getD_nonneg hf rows i

lemma inverted_eq_map (f : Row → Row → Row → ℚ) (rows : List Row) :
    inverted f rows = (nonEndIndices rows.length).map
      (fun i => 1 / ((lineDistances f rows).getD i 0 + epsilon)) := by
  rw [inverted, nonEndDistances, List.map_map]
  rfl

lemma accs_eq_map (f : Row → Row → Row → ℚ) (rows : List Row) :
    accs f rows = (nonEndIndices rows.length).map
      (fun i => 1 / ((lineDistances f rows).getD i 0 + epsilon)
        / totalInverted f rows * 100) := by
  rw [accs, inverted_eq_map, List.map_map]
  rfl

lemma inverted_pos {f : Row → Row → Row → ℚ}
    (hf : ∀ p a b, 0 ≤ f p a b) (rows : List Row) :
    ∀ v ∈ inverted f rows, 0 < v := by
  intro v hv
  rw [inverted, List.mem_map] at hv
  obtain ⟨d, hd, rfl⟩ := hv
  have hd0 : 0 ≤ d := nonEndDistances_nonneg hf rows d hd
  have : (0 : ℚ) < d + epsilon := by
    have : (0 : ℚ) < epsilon := by norm_num [epsilon]
    linarith
  positivity

lemma totalInverted_pos {f : Row → Row → Row → ℚ}
    (hf : ∀ p a b, 0 ≤ f p a b) {rows : List Row} (h3 : 3 ≤ rows.length) :
    0 < totalInverted f rows := by
  rw [totalInverted]
  refine List.sum_pos _ (inverted_pos hf rows) ?_
  rw [inverted_eq_map]
  simp [nonEndIndices_ne_nil h3]

/-! ### Shape of the result elements in the general branch -/

lemma getAllPoints_getD {f : Row → Row → Row → ℚ} {rows : List Row} {i : ℕ}
    (h2 : 2 ≤ rows.length) (hi : i < rows.length) :
    (getAllPoints f rows).getD i default =
      { id := (rows.getD i default).id,
        username := (rows.getD i default).username,
        latitude := (rows.getD i default).lat,
        longitude := (rows.getD i default).lng,
        timestamp := (rows.getD i default).timestamp,
        distance := some ((lineDistances f rows).getD i 0),
        accuracy := (accuracies f rows).getD i none,
        is_first := decide (i = 0),
        is_last := decide (i = rows.length - 1) } := by
  rw [getAllPoints, if_neg (by omega), getD_map_range _ _ hi]

lemma getAllPoints_length (f : Row → Row → Row → ℚ) (rows : List Row) :
    (getAllPoints f rows).length = rows.length := by
  rw [getAllPoints]
  split <;> simp

/-! ### Shape of the accuracy list -/

lemma accuracies_getD_endpoint {f : Row → Row → Row → ℚ} {rows : List Row}
    {i : ℕ} (hi : i < rows.length) (hend : i = 0 ∨ i = rows.length - 1) :
    (accuracies f rows).getD i none = none := by
  have hnot : i ∉ nonEndIndices rows.length := by
    rw [mem_nonEndIndices]
    tauto
  rw [accuracies]
  split
  · rcases Nat.lt_or_ge i rows.length with h | h
    · rw [List.getD_eq_getElem _ _ (by simpa using h), List.getElem_replicate]
    · omega
  split <;> rw [getD_map_range _ _ hi] <;> simp [hnot]

lemma accuracies_getD_interior_uniform {f : Row → Row → Row → ℚ}
    {rows : List Row} {i : ℕ} (hi : i < rows.length) (hi0 : i ≠ 0)
    (hin : i ≠ rows.length - 1) (htot : totalDistance f rows = 0) :
    (accuracies f rows).getD i none =
      some (100 / ((nonEndIndices rows.length).length : ℚ)) := by
  have hmem : i ∈ nonEndIndices rows.length :=
    mem_nonEndIndices.mpr ⟨hi, hi0, hin⟩
  have hne : (nonEndIndices rows.length).length ≠ 0 := by
    intro h
    rw [List.length_eq_zero] at h
    simp [h] at hmem
  rw [accuracies, if_neg hne, if_pos htot, getD_map_range _ _ hi, if_pos hmem]

lemma accuracies_getD_interior_inv {f : Row → Row → Row → ℚ}
    {rows : List Row} {i : ℕ} (hi : i < rows.length) (hi0 : i ≠ 0)
    (hin : i ≠ rows.length - 1) (htot : totalDistance f rows ≠ 0) :
    (accuracies f rows).getD i none =
      some (1 / ((lineDistances f rows).getD i 0 + epsilon)
        / totalInverted f rows * 100) := by
  have hmem : i ∈ nonEndIndices rows.length :=
    mem_nonEndIndices.mpr ⟨hi, hi0, hin⟩
  have hne : (nonEndIndices rows.length).length ≠ 0 := by
    intro h
    rw [List.length_eq_zero] at h
    simp [h] at hmem
  rw [accuracies, if_neg hne, if_neg htot, getD_map_range _ _ hi, if_pos hmem,
    accs_eq_map, getD_map_indexOf _ _ _ hmem]

lemma sum_range_ite_mem (n : ℕ) (g : ℕ → ℚ) :
    ((List.range n).map fun i => if i ∈ nonEndIndices n then g i else 0).sum
      = ((nonEndIndices n).map g).sum := by
  have h : ∀ i ∈ List.range n,
      (if i ∈ nonEndIndices n then g i else 0)
        = (if (decide (i ≠ 0 ∧ i ≠ n - 1) : Bool) then g i else 0) := by
    intro i hi
    rw [List.mem_range] at hi
    by_cases hc : i ≠ 0 ∧ i ≠ n - 1
    · rw [if_pos (mem_nonEndIndices.mpr ⟨hi, hc.1, hc.2⟩), if_pos (by simpa using hc)]
    · rw [if_neg (fun hm => hc ⟨(mem_nonEndIndices.mp hm).2.1,
        (mem_nonEndIndices.mp hm).2.2⟩), if_neg (by simpa using hc)]
  rw [List.map_congr_left h, sum_map_ite_filter]
  rfl

lemma map_accuracy_getAllPoints {f : Row → Row → Row → ℚ} {rows : List Row}
    (h2 : 2 ≤ rows.length) :
    (getAllPoints f rows).map (fun p => p.accuracy.getD 0)
      = (List.range rows.length).map
          (fun i => ((accuracies f rows).getD i none).getD 0) := by
  rw [getAllPoints, if_neg (by omega), List.map_map]
  rfl

/-- C1: for every input sequence with at least one interior point
(length ≥ 3) and a nonnegative distance engine, the sum of the accuracy
values assigned by `get_all_points` (interior points carry the only
non-null accuracies) equals exactly 100, in both the `total == 0`
uniform-split branch and the inverse-distance-weight branch. -/
theorem accuracy_sum_eq_100 (f : Row → Row → Row → ℚ)
    (hf : ∀ p a b, 0 ≤ f p a b) (rows : List Row) (h3 : 3 ≤ rows.length) :
    ((getAllPoints f rows).map fun p => p.accuracy.getD 0).sum = 100 := by
  rw [map_accuracy_getAllPoints (by omega)]
  by_cases htot : totalDistance f rows = 0
  · have hcong : ∀ i ∈ List.range rows.length,
        ((accuracies f rows).getD i none).getD 0
          = (if i ∈ nonEndIndices rows.length
              then 100 / ((nonEndIndices rows.length).length : ℚ) else 0) := by
      intro i hi
      rw [List.mem_range] at hi
      by_cases hm : i ∈ nonEndIndices rows.length
      · obtain ⟨-, h0, hn⟩ := mem_nonEndIndices.mp hm
        rw [accuracies_getD_interior_uniform hi h0 hn htot, if_pos hm]
        rfl
      · have hend : i = 0 ∨ i = rows.length - 1 := by
          rw [mem_nonEndIndices] at hm
          omega
        rw [accuracies_getD_endpoint hi hend, if_neg hm]
        rfl
    rw [List.map_congr_left hcong, sum_range_ite_mem, List.map_const',
      List.sum_replicate, nsmul_eq_mul]
    have hk : ((nonEndIndices rows.length).length : ℚ) ≠ 0 :=
      Nat.cast_ne_zero.mpr (nonEndIndices_length_ne_zero h3)
    field_simp
  · have hcong : ∀ i ∈ List.range rows.length,
        ((accuracies f rows).getD i none).getD 0
          = (if i ∈ nonEndIndices rows.length
              then 1 / ((lineDistances f rows).getD i 0 + epsilon)
                / totalInverted f rows * 100 else 0) := by
      intro i hi
      rw [List.mem_range] at hi
      by_cases hm : i ∈ nonEndIndices rows.length
      · obtain ⟨-, h0, hn⟩ := mem_nonEndIndices.mp hm
        rw [accuracies_getD_interior_inv hi h0 hn htot, if_pos hm]
        rfl
      · have hend : i = 0 ∨ i = rows.length - 1 := by
          rw [mem_nonEndIndices] at hm
          omega
        rw [accuracies_getD_endpoint hi hend, if_neg hm]
        rfl
    rw [List.map_congr_left hcong, sum_range_ite_mem]
    have hmul : ∀ i ∈ nonEndIndices rows.length,
        1 / ((lineDistances f rows).getD i 0 + epsilon)
            / totalInverted f rows * 100
          = 1 / ((lineDistances f rows).getD i 0 + epsilon)
            * ((totalInverted f rows)⁻¹ * 100) := by
      intro i _
      rw [div_eq_mul_inv, mul_assoc]
    have hTne : totalInverted f rows ≠ 0 :=
      ne_of_gt (totalInverted_pos hf h3)
    rw [List.map_congr_left hmul, List.sum_map_mul_right, ← inverted_eq_map,
      ← totalInverted, ← mul_assoc, mul_inv_cancel₀ hTne, one_mul]

/-- Witness for C1 at a concrete four-row sequence. -/
theorem accuracy_sum_eq_100_witness :
    3 ≤ sampleRows4.length ∧
    ((getAllPoints sampleDist sampleRows4).map fun p => p.accuracy.getD 0).sum
      = 100 :=
  ⟨by decide,
    accuracy_sum_eq_100 sampleDist (fun p _ _ => mul_self_nonneg p.lat)
      sampleRows4 (by decide)⟩

/-- C2 counterexample: the claim says every returned point of a 1-point
sequence has a null accuracy, but `get_all_points` assigns `accuracy =
100.0` in the `len(rows) < 2` branch (`main.py` line 119). -/
theorem one_point_accuracy_not_null :
    ¬ (∀ p ∈ getAllPoints sampleDist sampleRows1, p.accuracy = none) := by
  decide

/-- C2 amended: for every request where the stored sequence has fewer
than 2 points, every returned point has `accuracy = 100.0` (not null)
and `distance = null`; a 1-point sequence yields exactly one result. -/
theorem short_branch_accuracy_100 (f : Row → Row → Row → ℚ)
    (rows : List Row) (h : rows.length < 2) :
    (getAllPoints f rows).length = rows.length ∧
    ∀ p ∈ getAllPoints f rows, p.accuracy = some 100 ∧ p.distance = none := by
  constructor
  · exact getAllPoints_length f rows
  · intro p hp
    rw [getAllPoints, if_pos h, List.mem_map] at hp
    obtain ⟨r, -, rfl⟩ := hp
    exact ⟨rfl, rfl⟩

/-- Witness for the amended C2 at the concrete 1-point sequence. -/
theorem short_branch_accuracy_100_witness :
    sampleRows1.length < 2 ∧
    (getAllPoints sampleDist sampleRows1).length = sampleRows1.length ∧
    (∀ p ∈ getAllPoints sampleDist sampleRows1,
      p.accuracy = some 100 ∧ p.distance = none) :=
  ⟨by decide, short_branch_accuracy_100 sampleDist sampleRows1 (by decide)⟩

/-- C3: for every input sequence of length less than 2, every returned
point has `distance = null`, `accuracy = 100.0`, `is_first = true` and
`is_last = true`, and a length-0 sequence yields an empty result list. -/
theorem short_branch_fields (f : Row → Row → Row → ℚ) (rows : List Row)
    (h : rows.length < 2) :
    (∀ p ∈ getAllPoints f rows, p.distance = none ∧ p.accuracy = some 100 ∧
      p.is_first = true ∧ p.is_last = true) ∧
    getAllPoints f ([] : List Row) = [] := by
  constructor
  · intro p hp
    rw [getAllPoints, if_pos h, List.mem_map] at hp
    obtain ⟨r, -, rfl⟩ := hp
    exact ⟨rfl, rfl, rfl, rfl⟩
  · rfl

/-- Witness for C3 at the concrete 1-point sequence. -/
theorem short_branch_fields_witness :
    sampleRows1.length < 2 ∧
    (∀ p ∈ getAllPoints sampleDist sampleRows1,
      p.distance = none ∧ p.accuracy = some 100 ∧
      p.is_first = true ∧ p.is_last = true) ∧
    getAllPoints sampleDist ([] : List Row) = [] :=
  ⟨by decide, short_branch_fields sampleDist sampleRows1 (by decide)⟩

/-- C5: for every input sequence of length at least 2, the first and
last returned points have `distance = 0.0` (not null) regardless of the
geometry, while every interior point's distance is the distance
engine's point-to-segment result. -/
theorem endpoint_distance_zero (f : Row → Row → Row → ℚ) (rows : List Row)
    (h2 : 2 ≤ rows.length) :
    ((getAllPoints f rows).getD 0 default).distance = some 0 ∧
    ((getAllPoints f rows).getD (rows.length - 1) default).distance
      = some 0 ∧
    ∀ i, i < rows.length → i ≠ 0 → i ≠ rows.length - 1 →
      ((getAllPoints f rows).getD i default).distance =
        some (f (rows.getD i default) (rows.getD 0 default)
          (rows.getD (rows.length - 1) default)) := by
  refine ⟨?_, ?_, fun i hi hi0 hin => ?_⟩
  · have e := @getAllPoints_getD f rows 0 h2 (show 0 < rows.length by omega)
    simp only [e]
    rw [@lineDistances_getD f rows 0 (show 0 < rows.length by omega)]
    simp
  · have e := @getAllPoints_getD f rows (rows.length - 1) h2
      (show rows.length - 1 < rows.length by omega)
    simp only [e]
    rw [@lineDistances_getD f rows (rows.length - 1)
      (show rows.length - 1 < rows.length by omega)]
    simp
  · simp only [getAllPoints_getD h2 hi]
    rw [lineDistances_getD hi, if_pos ⟨hi0, hin⟩]

/-- Witness for C5 at the concrete three-row sequence. -/
theorem endpoint_distance_zero_witness :
    ((getAllPoints sampleDist sampleRows3).getD 0 default).distance
      = some 0 ∧
    ((getAllPoints sampleDist sampleRows3).getD 2 default).distance
      = some 0 ∧
    ((getAllPoints sampleDist sampleRows3).getD 1 default).distance
      = some 1 :=
  ⟨(endpoint_distance_zero sampleDist sampleRows3 (by decide)).1,
    (endpoint_distance_zero sampleDist sampleRows3 (by decide)).2.1,
    by
      have h := (endpoint_distance_zero sampleDist sampleRows3 (by decide)).2.2 1
        (by decide) (by decide) (by decide)
      simpa [sampleDist, sampleRows3, mkRow] using h⟩

/-- C7: for every input sequence of exactly 2 points, both returned
points have `distance = 0.0` and `accuracy = null`. -/
theorem two_points_result (f : Row → Row → Row → ℚ) (rows : List Row)
    (h : rows.length = 2) :
    (getAllPoints f rows).map (fun p => (p.distance, p.accuracy))
      = [(some 0, none), (some 0, none)] := by
  obtain ⟨a, b, rfl⟩ := List.length_eq_two.mp h
  rfl

/-- Witness for C7 at the concrete two-row sequence. -/
theorem two_points_result_witness :
    (getAllPoints sampleDist sampleRows2).map (fun p => (p.distance, p.accuracy))
      = [(some 0, none), (some 0, none)] :=
  two_points_result sampleDist sampleRows2 (by decide)

/-- C8: for every input sequence of length at least 2, the returned
list preserves input order (the element at index `i` carries row `i`'s
fields) and has `is_first = (i == 0)`, `is_last = (i == len-1)`, so
exactly one element has `is_first = true` and exactly one has
`is_last = true`. -/
theorem order_and_flags (f : Row → Row → Row → ℚ) (rows : List Row)
    (h2 : 2 ≤ rows.length) :
    (getAllPoints f rows).length = rows.length ∧
    (∀ i, i < rows.length →
      ((getAllPoints f rows).getD i default).id = (rows.getD i default).id ∧
      ((getAllPoints f rows).getD i default).latitude
        = (rows.getD i default).lat ∧
      ((getAllPoints f rows).getD i default).longitude
        = (rows.getD i default).lng ∧
      ((getAllPoints f rows).getD i default).is_first = decide (i = 0) ∧
      ((getAllPoints f rows).getD i default).is_last
        = decide (i = rows.length - 1)) ∧
    ((getAllPoints f rows).countP fun p => p.is_first) = 1 ∧
    ((getAllPoints f rows).countP fun p => p.is_last) = 1 := by
  refine ⟨getAllPoints_length f rows, fun i hi => ?_, ?_, ?_⟩
  · simp only [getAllPoints_getD h2 hi]
    exact ⟨trivial, trivial, trivial, trivial, trivial⟩
  · rw [getAllPoints, if_neg (by omega), List.countP_map]
    exact countP_decide_eq_one 0 (List.nodup_range _)
      (List.mem_range.mpr (by omega))
  · rw [getAllPoints, if_neg (by omega), List.countP_map]
    exact countP_decide_eq_one (rows.length - 1) (List.nodup_range _)
      (List.mem_range.mpr (by omega))

/-- Witness for C8 at the concrete three-row sequence. -/
theorem order_and_flags_witness :
    (getAllPoints sampleDist sampleRows3).length = sampleRows3.length ∧
    ((getAllPoints sampleDist sampleRows3).getD 1 default).id
      = (sampleRows3.getD 1 default).id ∧
    ((getAllPoints sampleDist sampleRows3).countP fun p => p.is_first) = 1 ∧
    ((getAllPoints sampleDist sampleRows3).countP fun p => p.is_last) = 1 :=
  ⟨(order_and_flags sampleDist sampleRows3 (by decide)).1,
    ((order_and_flags sampleDist sampleRows3 (by decide)).2.1 1 (by decide)).1,
    (order_and_flags sampleDist sampleRows3 (by decide)).2.2.1,
    (order_and_flags sampleDist sampleRows3 (by decide)).2.2.2⟩

/-- C6: for every input sequence with at least one interior point whose
interior distances total 0, every interior point is assigned
`accuracy = 100.0 / |interior|` and the two endpoints get `null`. -/
theorem uniform_split_accuracy (f : Row → Row → Row → ℚ) (rows : List Row)
    (h3 : 3 ≤ rows.length) (htot : totalDistance f rows = 0) :
    (∀ i, i < rows.length → i ≠ 0 → i ≠ rows.length - 1 →
      ((getAllPoints f rows).getD i default).accuracy
        = some (100 / ((nonEndIndices rows.length).length : ℚ))) ∧
    ((getAllPoints f rows).getD 0 default).accuracy = none ∧
    ((getAllPoints f rows).getD (rows.length - 1) default).accuracy
      = none := by
  have h2 : 2 ≤ rows.length := by omega
  refine ⟨fun i hi hi0 hin => ?_, ?_, ?_⟩
  · simp only [getAllPoints_getD h2 hi]
    exact accuracies_getD_interior_uniform hi hi0 hin htot
  · have e := @getAllPoints_getD f rows 0 h2 (show 0 < rows.length by omega)
    simp only [e]
    exact accuracies_getD_endpoint (show 0 < rows.length by omega) (Or.inl rfl)
  · have e := @getAllPoints_getD f rows (rows.length - 1) h2
      (show rows.length - 1 < rows.length by omega)
    simp only [e]
    exact accuracies_getD_endpoint
      (show rows.length - 1 < rows.length by omega) (Or.inr rfl)

/-- Witness for C6 at a concrete sequence whose single interior row has
distance 0. -/
theorem uniform_split_accuracy_witness :
    totalDistance sampleDist sampleRowsZ = 0 ∧
    ((getAllPoints sampleDist sampleRowsZ).getD 1 default).accuracy
      = some (100 / ((nonEndIndices sampleRowsZ.length).length : ℚ)) ∧
    ((getAllPoints sampleDist sampleRowsZ).getD 0 default).accuracy = none ∧
    ((getAllPoints sampleDist sampleRowsZ).getD
      (sampleRowsZ.length - 1) default).accuracy = none := by
  have htot : totalDistance sampleDist sampleRowsZ = 0 := by
    norm_num [totalDistance, nonEndDistances, lineDistances, sampleDist,
      sampleRowsZ, mkRow, show nonEndIndices 3 = [1] from rfl,
      show List.range 3 = [0, 1, 2] from rfl]
  exact ⟨htot,
    (uniform_split_accuracy sampleDist sampleRowsZ (by decide) htot).1
      1 (by decide) (by decide) (by decide),
    (uniform_split_accuracy sampleDist sampleRowsZ (by decide) htot).2.1,
    (uniform_split_accuracy sampleDist sampleRowsZ (by decide) htot).2.2⟩

/-- C4: for every input sequence (nonnegative distance engine) and
every pair of interior points scored against the same reference
segment, a strictly smaller computed distance gives a strictly larger
accuracy. -/
theorem interior_accuracy_monotone (f : Row → Row → Row → ℚ)
    (hf : ∀ p a b, 0 ≤ f p a b) (rows : List Row) (i j : ℕ)
    (hi : i < rows.length) (hi0 : i ≠ 0) (hin : i ≠ rows.length - 1)
    (hj : j < rows.length) (hj0 : j ≠ 0) (hjn : j ≠ rows.length - 1)
    (di dj ai aj : ℚ)
    (hdi : ((getAllPoints f rows).getD i default).distance = some di)
    (hdj : ((getAllPoints f rows).getD j default).distance = some dj)
    (hai : ((getAllPoints f rows).getD i default).accuracy = some ai)
    (haj : ((getAllPoints f rows).getD j default).accuracy = some aj)
    (hlt : di < dj) : aj < ai := by
  have h2 : 2 ≤ rows.length := by omega
  have h3 : 3 ≤ rows.length := by omega
  simp only [getAllPoints_getD h2 hi, Option.some_inj] at hdi hai
  simp only [getAllPoints_getD h2 hj, Option.some_inj] at hdj haj
  subst hdi hdj
  by_cases htot : totalDistance f rows = 0
  · exfalso
    have hmem : (lineDistances f rows).getD j 0 ∈ nonEndDistances f rows := by
      rw [nonEndDistances]
      exact List.mem_map_of_mem _ (mem_nonEndIndices.mpr ⟨hj, hj0, hjn⟩)
    have hle : (lineDistances f rows).getD j 0 ≤ totalDistance f rows :=
      List.single_le_sum (nonEndDistances_nonneg hf rows) _ hmem
    have h0i : 0 ≤ (lineDistances f rows).getD i 0 :=
      lineDistances_getD_nonneg hf rows i
    rw [htot] at hle
    linarith
  · rw [accuracies_getD_interior_inv hi hi0 hin htot, Option.some_inj] at hai
    rw [accuracies_getD_interior_inv hj hj0 hjn htot, Option.some_inj] at haj
    subst hai haj
    have hT : 0 < totalInverted f rows := totalInverted_pos hf h3
    have h0i : 0 ≤ (lineDistances f rows).getD i 0 :=
      lineDistances_getD_nonneg hf rows i
    have hε : (0 : ℚ) < epsilon := by norm_num [epsilon]
    have hεi : 0 < (lineDistances f rows).getD i 0 + epsilon := by linarith
    have hinv : 1 / ((lineDistances f rows).getD j 0 + epsilon)
        < 1 / ((lineDistances f rows).getD i 0 + epsilon) :=
      one_div_lt_one_div_of_lt hεi (by linarith)
    have hc : 0 < (totalInverted f rows)⁻¹ * 100 := by positivity
    calc 1 / ((lineDistances f rows).getD j 0 + epsilon)
          / totalInverted f rows * 100
        = 1 / ((lineDistances f rows).getD j 0 + epsilon)
          * ((totalInverted f rows)⁻¹ * 100) := by
          ring
      _ < 1 / ((lineDistances f rows).getD i 0 + epsilon)
          * ((totalInverted f rows)⁻¹ * 100) :=
          mul_lt_mul_of_pos_right hinv hc
      _ = 1 / ((lineDistances f rows).getD i 0 + epsilon)
          / totalInverted f rows * 100 := by
          ring

/-- C10: under a nonnegative distance engine, each weighting divisor
`d + 1e-6` is strictly positive and the sum of the inverted weights is
strictly positive, so neither division of the weighting branch divides
by zero. -/
theorem weighting_divisors_positive (f : Row → Row → Row → ℚ)
    (hf : ∀ p a b, 0 ≤ f p a b) (rows : List Row) (h3 : 3 ≤ rows.length) :
    (∀ d ∈ nonEndDistances f rows, 0 < d + epsilon) ∧
    0 < totalInverted f rows := by
  refine ⟨fun d hd => ?_, totalInverted_pos hf h3⟩
  have h0 : 0 ≤ d := nonEndDistances_nonneg hf rows d hd
  have hε : (0 : ℚ) < epsilon := by norm_num [epsilon]
  linarith

/-- Witness for C10 at the concrete three-row sequence. -/
theorem weighting_divisors_positive_witness :
    (∀ d ∈ nonEndDistances sampleDist sampleRows3, 0 < d + epsilon) ∧
    0 < totalInverted sampleDist sampleRows3 :=
  weighting_divisors_positive sampleDist (fun p _ _ => mul_self_nonneg p.lat)
    sampleRows3 (by decide)

/-- C9: with nonnegative interior distances of strictly positive total,
every interior accuracy lies in (0, 100]; with exactly one interior
point it equals exactly 100. -/
theorem interior_accuracy_bounds (f : Row → Row → Row → ℚ)
    (hf : ∀ p a b, 0 ≤ f p a b) (rows : List Row) (h3 : 3 ≤ rows.length)
    (htot : 0 < totalDistance f rows) (i : ℕ) (hi : i < rows.length)
    (hi0 : i ≠ 0) (hin : i ≠ rows.length - 1) (a : ℚ)
    (ha : ((getAllPoints f rows).getD i default).accuracy = some a) :
    (0 < a ∧ a ≤ 100) ∧
    ((nonEndIndices rows.length).length = 1 → a = 100) := by
  have h2 : 2 ≤ rows.length := by omega
  have htne : totalDistance f rows ≠ 0 := ne_of_gt htot
  simp only [getAllPoints_getD h2 hi] at ha
  rw [accuracies_getD_interior_inv hi hi0 hin htne, Option.some_inj] at ha
  subst ha
  have hd0 : 0 ≤ (lineDistances f rows).getD i 0 :=
    lineDistances_getD_nonneg hf rows i
  have hε : (0 : ℚ) < epsilon := by norm_num [epsilon]
  have hw : 0 < 1 / ((lineDistances f rows).getD i 0 + epsilon) := by
    apply div_pos one_pos
    linarith
  have hT : 0 < totalInverted f rows := totalInverted_pos hf h3
  have hmem : 1 / ((lineDistances f rows).getD i 0 + epsilon)
      ∈ inverted f rows := by
    rw [inverted_eq_map]
    exact List.mem_map_of_mem _ (mem_nonEndIndices.mpr ⟨hi, hi0, hin⟩)
  have hwT : 1 / ((lineDistances f rows).getD i 0 + epsilon)
      ≤ totalInverted f rows := by
    rw [totalInverted]
    exact List.single_le_sum
      (fun x hx => le_of_lt (inverted_pos hf rows x hx)) _ hmem
  refine ⟨⟨mul_pos (div_pos hw hT) (by norm_num), ?_⟩, fun hlen => ?_⟩
  · have h1 : 1 / ((lineDistances f rows).getD i 0 + epsilon)
        / totalInverted f rows ≤ 1 := (div_le_one hT).mpr hwT
    calc 1 / ((lineDistances f rows).getD i 0 + epsilon)
          / totalInverted f rows * 100
        ≤ 1 * 100 := mul_le_mul_of_nonneg_right h1 (by norm_num)
      _ = 100 := one_mul 100
  · obtain ⟨x, hx⟩ := List.length_eq_one.mp hlen
    have hix : i = x := by
      have hm : i ∈ nonEndIndices rows.length :=
        mem_nonEndIndices.mpr ⟨hi, hi0, hin⟩
      rw [hx] at hm
      simpa using hm
    have hTval : totalInverted f rows
        = 1 / ((lineDistances f rows).getD i 0 + epsilon) := by
      rw [totalInverted, inverted_eq_map, hx, ← hix]
      simp
    rw [hTval, div_self (ne_of_gt hw), one_mul]

/-- Witness for C9 at the concrete three-row sequence (one interior
point, distance 1, accuracy exactly 100). -/
theorem interior_accuracy_bounds_witness :
    ((0 : ℚ) < 100 ∧ (100 : ℚ) ≤ 100) ∧
    ((nonEndIndices sampleRows3.length).length = 1 → (100 : ℚ) = 100) := by
  have hl : (lineDistances sampleDist sampleRows3).getD 1 0 = 1 := by
    rw [lineDistances_getD (by decide), if_pos (by decide)]
    norm_num [sampleDist, sampleRows3, mkRow]
  have htot : 0 < totalDistance sampleDist sampleRows3 := by
    rw [totalDistance, nonEndDistances,
      show nonEndIndices sampleRows3.length = [1] from rfl]
    simp only [List.map_cons, List.map_nil, List.sum_cons, List.sum_nil]
    rw [hl]
    norm_num
  have hT : totalInverted sampleDist sampleRows3 = 1000000 / 1000001 := by
    rw [totalInverted, inverted_eq_map,
      show nonEndIndices sampleRows3.length = [1] from rfl]
    simp only [List.map_cons, List.map_nil, List.sum_cons, List.sum_nil]
    rw [hl]
    norm_num [epsilon]
  have ha : ((getAllPoints sampleDist sampleRows3).getD 1 default).accuracy
      = some 100 := by
    have e := @getAllPoints_getD sampleDist sampleRows3 1 (by decide) (by decide)
    simp only [e]
    rw [accuracies_getD_interior_inv (by decide) (by decide) (by decide)
      (ne_of_gt htot), hl, hT]
    norm_num [epsilon]
  exact interior_accuracy_bounds sampleDist (fun p _ _ => mul_self_nonneg p.lat)
    sampleRows3 (by decide) htot 1 (by decide) (by decide) (by decide) 100 ha

/-- Witness for C4 at the concrete four-row sequence (interior
distances 1 and 4). -/
theorem interior_accuracy_monotone_witness :
    (50000050 : ℚ) / 2500001 < 200000050 / 2500001 := by
  have hl1 : (lineDistances sampleDist sampleRows4).getD 1 0 = 1 := by
    rw [lineDistances_getD (by decide), if_pos (by decide)]
    norm_num [sampleDist, sampleRows4, mkRow]
  have hl2 : (lineDistances sampleDist sampleRows4).getD 2 0 = 4 := by
    rw [lineDistances_getD (by decide), if_pos (by decide)]
    norm_num [sampleDist, sampleRows4, mkRow]
  have htot : totalDistance sampleDist sampleRows4 ≠ 0 := by
    rw [totalDistance, nonEndDistances,
      show nonEndIndices sampleRows4.length = [1, 2] from rfl]
    simp only [List.map_cons, List.map_nil, List.sum_cons, List.sum_nil]
    rw [hl1, hl2]
    norm_num
  have hT : totalInverted sampleDist sampleRows4
      = 5000002000000 / 4000005000001 := by
    rw [totalInverted, inverted_eq_map,
      show nonEndIndices sampleRows4.length = [1, 2] from rfl]
    simp only [List.map_cons, List.map_nil, List.sum_cons, List.sum_nil]
    rw [hl1, hl2]
    norm_num [epsilon]
  have e1 := @getAllPoints_getD sampleDist sampleRows4 1 (by decide) (by decide)
  have e2 := @getAllPoints_getD sampleDist sampleRows4 2 (by decide) (by decide)
  have hd1 : ((getAllPoints sampleDist sampleRows4).getD 1 default).distance
      = some 1 := by
    simp only [e1]
    rw [hl1]
  have hd2 : ((getAllPoints sampleDist sampleRows4).getD 2 default).distance
      = some 4 := by
    simp only [e2]
    rw [hl2]
  have ha1 : ((getAllPoints sampleDist sampleRows4).getD 1 default).accuracy
      = some (200000050 / 2500001) := by
    simp only [e1]
    rw [accuracies_getD_interior_inv (by decide) (by decide) (by decide) htot,
      hl1, hT]
    norm_num [epsilon]
  have ha2 : ((getAllPoints sampleDist sampleRows4).getD 2 default).accuracy
      = some (50000050 / 2500001) := by
    simp only [e2]
    rw [accuracies_getD_interior_inv (by decide) (by decide) (by decide) htot,
      hl2, hT]
    norm_num [epsilon]
  exact interior_accuracy_monotone sampleDist
    (fun p _ _ => mul_self_nonneg p.lat) sampleRows4 1 2
    (by decide) (by decide) (by decide) (by decide) (by decide) (by decide)
    1 4 (200000050 / 2500001) (50000050 / 2500001)
    hd1 hd2 ha1 ha2 (by norm_num)

end GeoScore
